import Mathlib

/-!
Shallow embedding of the `juju-bundle` plugin (`src/main.rs`) together with
the parts of the external `juju` crate that its core logic depends on
(`Bundle`, `Application`, `CharmURL`, `Channel`, `Bundle::limit_apps`), the
latter modelled from the specification since the crate is not part of this
repository.  The theorems named `C1` .. `C10` settle the frozen claims about
the specification.
-/

/-- Structural splitter over a character list: `splitCharAux sep cs acc`
mirrors Rust's `str::split(sep)` semantics (always at least one piece; an
empty piece between, before, or after adjacent separators). -/
def splitCharAux (sep : Char) : List Char → List Char → List (List Char)
  | [], acc => [acc.reverse]
  | c :: rest, acc =>
    if c = sep then acc.reverse :: splitCharAux sep rest []
    else splitCharAux sep rest (c :: acc)

/-- Split a string on a separator character, Rust `str::split` semantics.
Implemented structurally so that it evaluates inside the kernel. -/
def splitChar (sep : Char) (s : String) : List String :=
  (splitCharAux sep s.toList []).map (fun l => ⟨l⟩)

/-- Join strings with a separator (inverse of `splitChar` on pieces that do
not contain the separator). -/
def joinSep (sep : String) : List String → String
  | [] => ""
  | [x] => x
  | x :: y :: rest => x ++ sep ++ joinSep sep (y :: rest)

def charDigit? (c : Char) : Option Nat :=
  if 48 ≤ c.toNat ∧ c.toNat ≤ 57 then some (c.toNat - 48) else none

def natOfCharsAux : List Char → Nat → Option Nat
  | [], acc => some acc
  | c :: rest, acc =>
    match charDigit? c with
    | some d => natOfCharsAux rest (acc * 10 + d)
    | none => none

/-- Parse a non-empty all-digit character list as a natural number
(mirrors Rust `str::parse::<u32>` on the revision segment). -/
def natOfChars : List Char → Option Nat
  | [] => none
  | l => natOfCharsAux l 0

def strToNat? (s : String) : Option Nat := natOfChars s.toList

def natDigits : Nat → Nat → List Char
  | 0, _ => []
  | fuel + 1, n =>
    if n < 10 then [Char.ofNat (48 + n)]
    else natDigits fuel (n / 10) ++ [Char.ofNat (48 + n % 10)]

/-- Decimal rendering of a natural number, fuel-structural so that it
evaluates inside the kernel. -/
def natToStr (n : Nat) : String := ⟨natDigits (n + 1) n⟩

/-- Modelled from the spec: the `Channel` enumeration of the external `juju`
crate (spec section 3): a small closed enumeration with linear promotion
order edge, beta, candidate, stable. -/
inductive Channel
  | edge
  | beta
  | candidate
  | stable
deriving DecidableEq, Repr

/-- Modelled from the spec: `CharmURL` of the external `juju` crate
(spec section 3): origin store, optional namespace segment, required name,
optional immutable integer revision.  The field `nspace` models the source
field `namespace` (a reserved word in Lean). -/
structure CharmURL where
  store : Option String
  nspace : Option String
  name : String
  revision : Option Nat
deriving DecidableEq, Repr

/-- Modelled from the spec: `Application` of the external `juju` crate
(spec section 3).  The `source` field holds the result of the crate's
`Application::source(name, bundle_path)` resolution: `some` descriptor when a
build source is present, `none` when absent; that boolean gate is all the
plugin code consumes. -/
structure Application where
  charm : Option CharmURL
  channel : Option String
  source : Option String
  resources : List (String × String)
deriving DecidableEq, Repr

/-- Modelled from the spec: `Bundle` of the external `juju` crate
(spec section 3): optional name, applications as an association list in the
bundle's iteration order (keys unique in real bundles), and an ordered list
of relation pairs of endpoint strings `"<app-name>[:<interface>]"`. -/
structure Bundle where
  name : Option String
  applications : List (String × Application)
  relations : List (String × String)
deriving DecidableEq, Repr

/-- Error values produced by the plugin.  Constructors beginning with
`panic` model Rust panics (`unwrap`, `expect`, `todo!`): process aborts, not
reported error values. -/
inductive Err
  | configPrune
  | parseUrlFailed
  | noNameOrUrl
  | appsNotFound (apps : List String)
  | badChannel (s : String)
  | external (msg : String)
  | panicMissingCharm
  | panicNoStore
  | panicUnknownStore (s : String)
  | panicBadParse (s : String)
  | panicAppMissing (n : String)
deriving DecidableEq, Repr

/-- `ensure_subset` from `src/main.rs` (lines 34-48): the difference
`subset \ superset` is computed; the empty difference is success, otherwise
the error lists every offending entry (sets are modelled as lists of
names). -/
def ensure_subset (subset superset : List String) : Except Err Unit :=
  let diff := subset.filter (fun x => !(superset.contains x))
  if diff.isEmpty then .ok () else .error (.appsNotFound diff)

/-- App-name component of a relation endpoint: the text before the first
`:`, or the whole string when it has no `:` (mirrors
`rel.split(':').next().unwrap_or(rel)` in `export`). -/
def appOf (s : String) : String := (splitChar ':' s).headD s

/-- Interface segment of a relation endpoint as `export` computes it:
`rel.split(':').last().unwrap_or("")`, i.e. the last split piece.  Since
splitting always yields at least one piece, the `""` default is never used:
an endpoint without `:` yields the whole endpoint string. -/
def ifaceOf (s : String) : String := ((splitChar ':' s).getLast?).getD ""

/-- Modelled from the spec: `Bundle::limit_apps` lives in the external
`juju` crate, not in this repository's sources.  Per spec section 4.1: the
names in `includeApps` must all exist (checked with the `ensure_subset`
semantics, every offender reported); the keep-set is `includeApps` when
non-empty, else all current names, minus `excludeApps`; applications outside
the keep-set are removed; a relation survives exactly when both endpoints'
app-name components are keys of the reduced applications map. -/
def limitApps (b : Bundle) (includeApps excludeApps : List String) : Except Err Bundle :=
  match ensure_subset includeApps (b.applications.map Prod.fst) with
  | .error e => .error e
  | .ok _ =>
    let keep0 := if includeApps.isEmpty then b.applications.map Prod.fst else includeApps
    let keep := keep0.filter (fun n => !(excludeApps.contains n))
    let apps := b.applications.filter (fun p => keep.contains p.1)
    let keys := apps.map Prod.fst
    let rels := b.relations.filter
      (fun r => keys.contains (appOf r.1) && keys.contains (appOf r.2))
    .ok { b with applications := apps, relations := rels }

theorem contains_mem (l : List String) (x : String) : l.contains x = true ↔ x ∈ l := by
  simp [List.contains, List.elem_iff]

theorem mem_diff_filter (sub sup : List String) (x : String) :
    x ∈ sub.filter (fun y => !(sup.contains y)) ↔ x ∈ sub ∧ x ∉ sup := by
  rw [List.mem_filter]
  constructor
  · rintro ⟨h1, h2⟩
    refine ⟨h1, fun hx => ?_⟩
    rw [← contains_mem sup x] at hx
    rw [hx] at h2
    simp at h2
  · rintro ⟨h1, h2⟩
    refine ⟨h1, ?_⟩
    cases hc : sup.contains x with
    | false => rfl
    | true => exact absurd ((contains_mem sup x).1 hc) h2

/-- C8: `ensure_subset` succeeds exactly when every requested name is a key
of the bundle's applications, and on failure the error lists exactly the
offending entries (every name requested but absent, not only the first). -/
theorem C8_ensure_subset_all_offenders (sub sup : List String) :
    (ensure_subset sub sup = .ok () ↔ ∀ x ∈ sub, x ∈ sup)
    ∧ (∀ l, ensure_subset sub sup = .error (.appsNotFound l) →
        ∀ x, (x ∈ l ↔ x ∈ sub ∧ x ∉ sup)) := by
  have hiff : (sub.filter (fun y => !(sup.contains y))).isEmpty = true ↔ ∀ x ∈ sub, x ∈ sup := by
    rw [List.isEmpty_iff]
    constructor
    · intro hnil x hx
      by_cases hs : x ∈ sup
      · exact hs
      · exact absurd ((mem_diff_filter sub sup x).2 ⟨hx, hs⟩) (by rw [hnil]; simp)
    · intro hall
      rw [List.eq_nil_iff_forall_not_mem]
      intro x hx
      rw [mem_diff_filter sub sup x] at hx
      exact hx.2 (hall x hx.1)
  constructor
  · simp only [ensure_subset]
    cases hd : (sub.filter (fun y => !(sup.contains y))).isEmpty with
    | true =>
      rw [if_pos rfl]
      constructor
      · intro _
        exact hiff.1 hd
      · intro _
        rfl
    | false =>
      rw [if_neg (by simp)]
      constructor
      · intro hcontra
        exact absurd hcontra (by simp)
      · intro hall
        exact absurd (hiff.2 hall) (by rw [hd]; simp)
  · intro l hl x
    simp only [ensure_subset] at hl
    cases hd : (sub.filter (fun y => !(sup.contains y))).isEmpty with
    | true =>
      rw [if_pos hd] at hl
      cases hl
    | false =>
      rw [if_neg (by rw [hd]; simp)] at hl
      simp only [Except.error.injEq, Err.appsNotFound.injEq] at hl
      rw [← hl]
      exact mem_diff_filter sub sup x

theorem C8_witness :
    ensure_subset ["a", "x"] ["a", "b"] = .error (.appsNotFound ["x"])
    ∧ ("x" ∈ (["x"] : List String) ↔ "x" ∈ ["a", "x"] ∧ "x" ∉ ["a", "b"]) :=
  ⟨rfl, (C8_ensure_subset_all_offenders ["a", "x"] ["a", "b"]).2 ["x"] rfl "x"⟩

/-- C1: for every accepted include/exclude selection, a relation of the
original bundle is kept exactly when both endpoints' app-name components are
keys of the resulting applications map, and every relation of any resulting
(reachable) bundle state has both endpoint app-names present (the
graph-consistency invariant); `limitApps` is modelled from the spec since
`Bundle::limit_apps` is in the external `juju` crate. -/
theorem C1_limit_graph_consistency (b : Bundle) (incl excl : List String) (b' : Bundle)
    (h : limitApps b incl excl = .ok b') :
    (∀ r ∈ b.relations,
        (r ∈ b'.relations ↔
          appOf r.1 ∈ b'.applications.map Prod.fst
          ∧ appOf r.2 ∈ b'.applications.map Prod.fst))
    ∧ (∀ r ∈ b'.relations,
        appOf r.1 ∈ b'.applications.map Prod.fst
        ∧ appOf r.2 ∈ b'.applications.map Prod.fst) := by
  unfold limitApps at h
  cases hsub : ensure_subset incl (b.applications.map Prod.fst) with
  | error e => rw [hsub] at h; exact absurd h (by simp)
  | ok u =>
    rw [hsub] at h
    simp only [Except.ok.injEq] at h
    subst h
    constructor
    · intro r hr
      simp only [List.mem_filter, Bool.and_eq_true, contains_mem]
      tauto
    · intro r hr
      simp only [List.mem_filter, Bool.and_eq_true, contains_mem] at hr
      tauto

def appStub : Application := ⟨some ⟨some "ch", none, "x", some 1⟩, none, none, []⟩

def bundle3 : Bundle :=
  ⟨none, [("a", appStub), ("b", appStub), ("c", appStub)],
    [("a:db", "b:db"), ("b:http", "c:http")]⟩

def bundle3Limited : Bundle :=
  ⟨none, [("a", appStub), ("b", appStub)], [("a:db", "b:db")]⟩

theorem C1_witness :
    (∀ r ∈ bundle3.relations,
        (r ∈ bundle3Limited.relations ↔
          appOf r.1 ∈ bundle3Limited.applications.map Prod.fst
          ∧ appOf r.2 ∈ bundle3Limited.applications.map Prod.fst))
    ∧ (∀ r ∈ bundle3Limited.relations,
        appOf r.1 ∈ bundle3Limited.applications.map Prod.fst
        ∧ appOf r.2 ∈ bundle3Limited.applications.map Prod.fst) :=
  C1_limit_graph_consistency bundle3 ["a", "b"] [] bundle3Limited (by rfl)

/-- Edge derivation of the `export` subcommand (`src/main.rs` lines 536-543):
one node per application key (in order), and for each relation an edge from
the node matching the first endpoint's app-name to the node matching the
second endpoint's app-name, labeled with the last `:`-piece of the first
endpoint.  A missing node is the `unwrap` panic, modelled as `none`. -/
def exportEdges (nodes : List String) : List (String × String) → Option (List (Nat × Nat × String))
  | [] => some []
  | r :: rest =>
    match nodes.findIdx? (fun x => x == appOf r.1), nodes.findIdx? (fun x => x == appOf r.2) with
    | some ia, some ib =>
      match exportEdges nodes rest with
      | some es => some ((ia, ib, ifaceOf r.1) :: es)
      | none => none
    | _, _ => none

/-- Graph produced by `export`: the node list (application keys in order)
together with the labeled directed edges. -/
def exportGraph (b : Bundle) : Option (List String × List (Nat × Nat × String)) :=
  match exportEdges (b.applications.map Prod.fst) b.relations with
  | some es => some (b.applications.map Prod.fst, es)
  | none => none

def bundleC7 : Bundle := ⟨none, [("a", appStub), ("b", appStub)], [("a", "b:x")]⟩

theorem C7_counterexample :
    exportGraph bundleC7 = some (["a", "b"], [(0, 1, "a")]) ∧ ("a" : String) ≠ "" :=
  ⟨rfl, by decide⟩

/-- C7 (amended): every exported edge runs from the node matching the first
endpoint's app-name to the node matching the second endpoint's, labeled with
the text after the last `:` of the first endpoint; when the first endpoint
contains no `:` (splitting yields the single whole string) the label is the
entire endpoint string, not the empty string. -/
theorem C7_amended_edges (nodes : List String) (rels : List (String × String))
    (es : List (Nat × Nat × String)) (h : exportEdges nodes rels = some es) :
    es.length = rels.length
    ∧ (∀ q ∈ rels.zip es,
        nodes.findIdx? (fun x => x == appOf q.1.1) = some q.2.1
        ∧ nodes.findIdx? (fun x => x == appOf q.1.2) = some q.2.2.1
        ∧ q.2.2.2 = ifaceOf q.1.1)
    ∧ (∀ s : String, splitChar ':' s = [s] → ifaceOf s = s) := by
  refine ⟨?_, ?_, ?_⟩
  · induction rels generalizing es with
    | nil => simp only [exportEdges, Option.some.injEq] at h; simp [← h]
    | cons r rest ih =>
      simp only [exportEdges] at h
      cases ha : nodes.findIdx? (fun x => x == appOf r.1) with
      | none => rw [ha] at h; cases h
      | some ia =>
        cases hb : nodes.findIdx? (fun x => x == appOf r.2) with
        | none => rw [ha, hb] at h; cases h
        | some ib =>
          rw [ha, hb] at h
          cases hrest : exportEdges nodes rest with
          | none => rw [hrest] at h; cases h
          | some es' =>
            rw [hrest] at h
            simp only [Option.some.injEq] at h
            subst h
            simp [ih es' hrest]
  · induction rels generalizing es with
    | nil =>
      simp only [exportEdges, Option.some.injEq] at h
      subst h
      intro q hq
      simp at hq
    | cons r rest ih =>
      simp only [exportEdges] at h
      cases ha : nodes.findIdx? (fun x => x == appOf r.1) with
      | none => rw [ha] at h; cases h
      | some ia =>
        cases hb : nodes.findIdx? (fun x => x == appOf r.2) with
        | none => rw [ha, hb] at h; cases h
        | some ib =>
          rw [ha, hb] at h
          cases hrest : exportEdges nodes rest with
          | none => rw [hrest] at h; cases h
          | some es' =>
            rw [hrest] at h
            simp only [Option.some.injEq] at h
            subst h
            intro q hq
            rw [List.zip_cons_cons, List.mem_cons] at hq
            cases hq with
            | inl heq => subst heq; exact ⟨ha, hb, rfl⟩
            | inr hmem => exact ih es' hrest q hmem
  · intro s hs
    rw [ifaceOf, hs]
    rfl

/-- Modelled from the spec: serialization of `CharmURL` in the external
`juju` crate (spec sections 3 and 4.2): `store:namespace/name-revision`,
every segment but the name optional, round-tripping through the parser. -/
def urlToString (u : CharmURL) : String :=
  (match u.store with | some s => s ++ ":" | none => "")
  ++ (match u.nspace with | some n => n ++ "/" | none => "")
  ++ u.name
  ++ (match u.revision with | some r => "-" ++ natToStr r | none => "")

/-- Modelled from the spec: `CharmURL::parse` of the external `juju` crate
(spec sections 3 and 4.2): an optional store before the first `:`, an
optional namespace before the first `/`, then the name, with a trailing
all-digit `-` segment read as the revision; the name must be non-empty. -/
def parseCharmURL (s : String) : Option CharmURL :=
  let storeRest : Option String × String :=
    match splitChar ':' s with
    | [x] => (none, x)
    | x :: xs => (some x, joinSep ":" xs)
    | [] => (none, s)
  let nsRest : Option String × String :=
    match splitChar '/' storeRest.2 with
    | [x] => (none, x)
    | x :: xs => (some x, joinSep "/" xs)
    | [] => (none, storeRest.2)
  let parts := splitChar '-' nsRest.2
  let nameRev : String × Option Nat :=
    match parts with
    | [x] => (x, none)
    | _ =>
      match parts.getLast? with
      | some lastPart =>
        match strToNat? lastPart with
        | some r => (joinSep "-" parts.dropLast, some r)
        | none => (nsRest.2, none)
      | none => (nsRest.2, none)
  if nameRev.1 = "" then none
  else some ⟨storeRest.1, nsRest.1, nameRev.1, nameRev.2⟩

/-- Modelled from the spec: `Channel::from_str` of the external `juju` crate
(spec section 3): the four channel labels parse, anything else is an
error. -/
def channelFromStr (s : String) : Except Err Channel :=
  if s = "edge" then .ok .edge
  else if s = "beta" then .ok .beta
  else if s = "candidate" then .ok .candidate
  else if s = "stable" then .ok .stable
  else .error (.badChannel s)

/-- Effective channel of an application in `publish`
(`app.channel.map(Channel::from_str).transpose()?.unwrap_or(Stable)`,
`src/main.rs` lines 410-414). -/
def effChannel (app : Application) : Except Err Channel :=
  match app.channel with
  | none => .ok Channel.stable
  | some s => channelFromStr s

/-- The fields of `PublishConfig` (`src/main.rs` lines 136-173), in source
order. -/
structure PublishConfig where
  bundlePath : String
  csUrl : Option String
  releaseTo : List String
  publishCharms : Bool
  publishNamespace : Option String
  serial : Bool
  prune : Bool
  destructiveMode : Bool
deriving DecidableEq, Repr

/-- The configuration fields the per-application closure of `publish`
actually reads (`c.prune`, `c.bundle_path`, `c.release_to`,
`c.destructive_mode`); the `serial` flag is not among them. -/
structure HelperCfg where
  pruneFlag : Bool
  bundlePath : String
  releaseTo : List String
  destructiveMode : Bool
deriving DecidableEq, Repr

def PublishConfig.toHelperCfg (c : PublishConfig) : HelperCfg :=
  ⟨c.prune, c.bundlePath, c.releaseTo, c.destructiveMode⟩

/-- Observable side effects of a `publish` run, in order of occurrence.
Which application closures were entered is tracked separately (`invoked`). -/
inductive Effect
  | load
  | login
  | query (n : String)
  | buildUpload (n : String)
  | pruneFx
  | saveBundle
  | copyReadme
  | copyCharmcraft
  | uploadBundle
deriving DecidableEq, Repr

/-- External collaborators of `publish`, modelled as deterministic oracles:
bundle loading, `charm login`, `url.show(channel)` revision lookup,
`upload_charmhub`/`upload_charm_store` per application, `docker system
prune`, bundle save, the README/charmcraft copies, and the final bundle
upload. -/
structure Env where
  load : Except Err Bundle
  login : Except Err Unit
  showRev : CharmURL → Channel → Except Err Nat
  uploadCh : String → Option String → String → List String → Bool → Except Err String
  uploadCs : String → Option String → String → List String → Bool → Except Err String
  pruneRun : Except Err Unit
  saveBundleRun : Except Err Unit
  copyReadmeRun : Except Err Unit
  copyCharmcraftRun : Except Err Unit
  bundleUploadCh : Except Err Unit
  bundleUploadCs : Except Err Unit

/-- Tail of the per-application closure after a build-and-upload attempt
(`src/main.rs` lines 419-441): on success optionally run the prune step,
then return the revision URL string. -/
def afterUpload (hc : HelperCfg) (env : Env) (nm : String) (up : Except Err String) :
    Except Err (String × String) × List Effect :=
  match up with
  | .error e => (.error e, [.buildUpload nm])
  | .ok rv =>
    if hc.pruneFlag then
      match env.pruneRun with
      | .error e => (.error e, [.buildUpload nm, .pruneFx])
      | .ok _ => (.ok (nm, rv), [.buildUpload nm, .pruneFx])
    else (.ok (nm, rv), [.buildUpload nm])

/-- The per-application closure `helper` of `publish` (`src/main.rs` lines
401-442): unwrap the charm reference (panic when absent); a pinned revision
is returned unchanged; otherwise a source-less app queries the store on its
effective channel and pins the result; otherwise the charm is built and
uploaded to the store named by the bundle URL, with an optional prune
afterwards. -/
def helper (env : Env) (hc : HelperCfg) (ns : Option String) (store : Option String)
    (nm : String) (app : Application) : Except Err (String × String) × List Effect :=
  match app.charm with
  | none => (.error .panicMissingCharm, [])
  | some url =>
    if url.revision.isSome then (.ok (nm, urlToString url), [])
    else
      match app.source with
      | none =>
        match effChannel app with
        | .error e => (.error e, [])
        | .ok ch =>
          match env.showRev url ch with
          | .error e => (.error e, [.query nm])
          | .ok rev => (.ok (nm, urlToString { url with revision := some rev }), [.query nm])
      | some _ =>
        match store with
        | none => (.error .panicNoStore, [])
        | some sk =>
          if sk = "ch" then
            afterUpload hc env nm (env.uploadCh nm ns hc.bundlePath hc.releaseTo hc.destructiveMode)
          else if sk = "cs" then
            afterUpload hc env nm (env.uploadCs nm ns hc.bundlePath hc.releaseTo hc.destructiveMode)
          else (.error (.panicUnknownStore sk), [])

/-- Result of the per-application closure alone. -/
def unitRes (env : Env) (hc : HelperCfg) (ns : Option String) (store : Option String)
    (p : String × Application) : Except Err (String × String) :=
  (helper env hc ns store p.1 p.2).1

/-- Outcome of the fan-out over applications: the collected result, the side
effects in order, and the names whose closure was actually entered. -/
structure FanOut where
  result : Except Err (List (String × String))
  effects : List Effect
  invoked : List String
deriving Repr

/-- Serial fan-out: `bundle.applications.iter().map(helper).collect::<Result<Vec<_>, _>>()`
(`src/main.rs` line 448).  `collect` into `Result` short-circuits: after the
first error no further element is taken, so later closures are never
entered. -/
def collectSerial (env : Env) (hc : HelperCfg) (ns : Option String) (store : Option String) :
    List (String × Application) → FanOut
  | [] => ⟨.ok [], [], []⟩
  | p :: rest =>
    match helper env hc ns store p.1 p.2 with
    | (.error e, eff) => ⟨.error e, eff, [p.1]⟩
    | (.ok v, eff) =>
      let f := collectSerial env hc ns store rest
      match f.result with
      | .error e => ⟨.error e, eff ++ f.effects, p.1 :: f.invoked⟩
      | .ok vs => ⟨.ok (v :: vs), eff ++ f.effects, p.1 :: f.invoked⟩

/-- Per-application outcomes of the parallel fan-out, in bundle order. -/
def parOuts (env : Env) (hc : HelperCfg) (ns : Option String) (store : Option String)
    (apps : List (String × Application)) : List (Except Err (String × String) × List Effect) :=
  apps.map (fun p => helper env hc ns store p.1 p.2)

/-- The errors of every failing closure across the fan-out, in bundle
order: an over-approximation of the errors the scheduler can actually
surface (a closure that is never dispatched raises nothing), sound for
every scheduler choice because the surfaced error is always among them. -/
def parErrs (env : Env) (hc : HelperCfg) (ns : Option String) (store : Option String)
    (apps : List (String × Application)) : List Err :=
  (parOuts env hc ns store apps).filterMap
    (fun q => match q.1 with | .error e => some e | .ok _ => none)

/-- Scheduler-dependent observation of a failed parallel fan-out.  Rayon's
`Result` collection halts dispatching further closures once an error has
been seen (its `while_some` adapter), so which closures had already started
before the halt took effect — and hence which side effects occurred — is
decided by the scheduler, not by the program; the model takes that
observation as an oracle instead of fixing it. -/
structure ParSchedule where
  invokedOnErr : List String
  effectsOnErr : List Effect

/-- An arbitrary scheduler observation, used to instantiate witnesses. -/
def schedEmpty : ParSchedule := ⟨[], []⟩

/-- Parallel fan-out: `bundle.applications.par_iter().map(helper).collect::<Result<Vec<_>, _>>()`
(`src/main.rs` line 450).  On an all-success run every closure runs to
completion and the collected vector keeps the original order (the effect
trace lists each closure's effects in bundle order; the actual interleaving
is scheduler-dependent and immaterial here).  On failure the collection
stops dispatching closures that have not started, so the closures that ran
and their effects come from the `sched` oracle, and one of the raised
errors — chosen by the scheduler, modelled by `pick` — is returned;
`parErrs` over-approximates the choices soundly. -/
def collectParallel (pick : List Err → Err) (sched : ParSchedule) (env : Env) (hc : HelperCfg)
    (ns : Option String) (store : Option String) (apps : List (String × Application)) : FanOut :=
  let outs := parOuts env hc ns store apps
  match parErrs env hc ns store apps with
  | [] => ⟨.ok (outs.filterMap (fun q => q.1.toOption)), (outs.map (fun q => q.2)).flatten,
      apps.map Prod.fst⟩
  | e :: rest => ⟨.error (pick (e :: rest)), sched.effectsOnErr, sched.invokedOnErr⟩

/-- Association-list lookup in the applications map. -/
def lookupApp : List (String × Application) → String → Option Application
  | [], _ => none
  | p :: rest, n => if p.1 = n then some p.2 else lookupApp rest n

/-- One merge step of `publish` (`src/main.rs` lines 456-464): the named
application's charm is replaced with the parsed revision URL and its channel
override cleared. -/
def setRevision (apps : List (String × Application)) (n : String) (u : CharmURL) :
    List (String × Application) :=
  apps.map (fun p => if p.1 = n then (p.1, { p.2 with charm := some u, channel := none }) else p)

/-- The merge loop of `publish` (`src/main.rs` lines 456-464): for each
resolution result, look the application up (`expect`, a panic when absent),
parse the revision URL (`unwrap`, a panic on failure), and rewrite charm and
channel. -/
def applyRevisions (apps : List (String × Application)) :
    List (String × String) → Except Err (List (String × Application))
  | [] => .ok apps
  | q :: rest =>
    if (lookupApp apps q.1).isSome then
      match parseCharmURL q.2 with
      | some u => applyRevisions (setRevision apps q.1 u) rest
      | none => .error (.panicBadParse q.2)
    else .error (.panicAppMissing q.1)

/-- Bundle URL selection of `publish` (`src/main.rs` lines 380-394): an
explicit `--url` is parsed; otherwise the bundle's `name` field yields a
`ch:`-store URL; neither is an error. -/
def bundleUrlOf (c : PublishConfig) (b : Bundle) : Except Err CharmURL :=
  match c.csUrl, b.name with
  | some url, _ =>
    match parseCharmURL url with
    | some u => .ok u
    | none => .error .parseUrlFailed
  | none, some nm => .ok ⟨some "ch", none, nm, none⟩
  | none, none => .error .noNameOrUrl

/-- Namespace selection (`src/main.rs` lines 396-399):
`c.publish_namespace.or(bundle_url.namespace)`. -/
def nsOf (c : PublishConfig) (bu : CharmURL) : Option String :=
  match c.publishNamespace with
  | some n => some n
  | none => bu.nspace

/-- Observable outcome of a `publish` run: the returned result, the side
effects in order, the application closures entered, the pinned-revision
bundle written to disk (when the save step ran), and the bundle value handed
to the final store upload (always the originally loaded value). -/
structure PublishOut where
  result : Except Err Unit
  effects : List Effect
  invoked : List String
  saved : Option Bundle
  finalUploadOf : Option Bundle
deriving Repr

/-- The part of `publish` after the fan-out (`src/main.rs` lines 447-503)
that determines the returned result, the saved pinned-revision bundle, and
the bundle handed to the final upload — a function of the fan-out's
collected result alone: propagate the fan-out error or merge the resolved
revisions into a clone of the bundle, save it, copy the metadata files, and
upload the original bundle value to the store. -/
def publishTailCore (env : Env) (b : Bundle) (bu : CharmURL)
    (r : Except Err (List (String × String))) :
    Except Err Unit × Option Bundle × Option Bundle :=
  match r with
  | .error e => (.error e, none, none)
  | .ok pairs =>
    match applyRevisions b.applications pairs with
    | .error e => (.error e, none, none)
    | .ok merged =>
      let nb : Bundle := { b with applications := merged }
      match env.saveBundleRun with
      | .error e => (.error e, none, none)
      | .ok _ =>
        match env.copyReadmeRun with
        | .error e => (.error e, some nb, none)
        | .ok _ =>
          match env.copyCharmcraftRun with
          | .error e => (.error e, some nb, none)
          | .ok _ =>
            match bu.store with
            | none => (.error .panicNoStore, some nb, none)
            | some sk =>
              if sk = "ch" then
                match env.bundleUploadCh with
                | .error e => (.error e, some nb, some b)
                | .ok _ => (.ok (), some nb, some b)
              else if sk = "cs" then
                match env.bundleUploadCs with
                | .error e => (.error e, some nb, some b)
                | .ok _ => (.ok (), some nb, some b)
              else (.error (.panicUnknownStore sk), some nb, none)

/-- The side effects `publish` performs after the fan-out, also a function
of the fan-out's collected result alone. -/
def publishTailEffects (env : Env) (b : Bundle) (bu : CharmURL)
    (r : Except Err (List (String × String))) : List Effect :=
  match r with
  | .error _ => []
  | .ok pairs =>
    match applyRevisions b.applications pairs with
    | .error _ => []
    | .ok _ =>
      match env.saveBundleRun with
      | .error _ => [.saveBundle]
      | .ok _ =>
        match env.copyReadmeRun with
        | .error _ => [.saveBundle, .copyReadme]
        | .ok _ =>
          match env.copyCharmcraftRun with
          | .error _ => [.saveBundle, .copyReadme, .copyCharmcraft]
          | .ok _ =>
            match bu.store with
            | none => [.saveBundle, .copyReadme, .copyCharmcraft]
            | some sk =>
              if sk = "ch" ∨ sk = "cs" then
                [.saveBundle, .copyReadme, .copyCharmcraft, .uploadBundle]
              else [.saveBundle, .copyReadme, .copyCharmcraft]

/-- Assembled outcome of `publish` after the fan-out `f`. -/
def publishTail (env : Env) (b : Bundle) (bu : CharmURL) (f : FanOut) : PublishOut :=
  ⟨(publishTailCore env b bu f.result).1,
    [Effect.load, Effect.login] ++ f.effects ++ publishTailEffects env b bu f.result,
    f.invoked,
    (publishTailCore env b bu f.result).2.1,
    (publishTailCore env b bu f.result).2.2⟩

/-- The `publish` subcommand (`src/main.rs` lines 366-504): the
prune-implies-serial guard, bundle load, `charm login`, bundle URL and
namespace selection, the serial-or-parallel fan-out, then `publishTail`. -/
def publishModel (pick : List Err → Err) (sched : ParSchedule) (env : Env)
    (c : PublishConfig) : PublishOut :=
  if c.prune && !c.serial then
    ⟨.error .configPrune, [], [], none, none⟩
  else
    match env.load with
    | .error e => ⟨.error e, [.load], [], none, none⟩
    | .ok b =>
      match env.login with
      | .error e => ⟨.error e, [.load, .login], [], none, none⟩
      | .ok _ =>
        match bundleUrlOf c b with
        | .error e => ⟨.error e, [.load, .login], [], none, none⟩
        | .ok bu =>
          publishTail env b bu
            (if c.serial then
              collectSerial env c.toHelperCfg (nsOf c bu) bu.store b.applications
            else
              collectParallel pick sched env c.toHelperCfg (nsOf c bu) bu.store b.applications)

def pickHead : List Err → Err := fun l => l.headD .configPrune

def urlPinned : CharmURL := ⟨some "ch", none, "mycharm", some 3⟩

def appPinned : Application := ⟨some urlPinned, none, none, []⟩

def bundleOk : Bundle := ⟨some "bun", [("a", appPinned)], []⟩

def envOk : Env :=
  ⟨.ok bundleOk, .ok (), fun _ _ => .ok 7, fun _ _ _ _ _ => .ok "ch:upcharm-1",
    fun _ _ _ _ _ => .ok "cs:upcharm-1", .ok (), .ok (), .ok (), .ok (), .ok (), .ok ()⟩

def cfgSerial : PublishConfig := ⟨"bundle.yaml", none, ["edge"], false, none, true, false, false⟩

def cfgPrunePar : PublishConfig := ⟨"bundle.yaml", none, ["edge"], false, none, false, true, false⟩

/-- C2: requesting pruning together with the parallel policy (prune set,
serial unset) makes `publish` fail with the configuration-conflict error
before anything happens: no bundle load, no login, no side effect, no
application closure entered, and nothing saved. -/
theorem C2_prune_parallel_rejected (pick : List Err → Err) (sched : ParSchedule) (env : Env)
    (c : PublishConfig) (hprune : c.prune = true) (hserial : c.serial = false) :
    (publishModel pick sched env c).result = .error .configPrune
    ∧ (publishModel pick sched env c).effects = []
    ∧ (publishModel pick sched env c).invoked = []
    ∧ (publishModel pick sched env c).saved = none := by
  simp [publishModel, hprune, hserial]

theorem C2_witness :
    (publishModel pickHead schedEmpty envOk cfgPrunePar).result = .error .configPrune
    ∧ (publishModel pickHead schedEmpty envOk cfgPrunePar).effects = []
    ∧ (publishModel pickHead schedEmpty envOk cfgPrunePar).invoked = []
    ∧ (publishModel pickHead schedEmpty envOk cfgPrunePar).saved = none :=
  C2_prune_parallel_rejected pickHead schedEmpty envOk cfgPrunePar rfl rfl

/-- C5: for an application without a build source the closure follows the
decision table: an already-pinned reference is returned unchanged; otherwise
the store is queried on the application's effective channel (the declared
one, `stable` when none is declared) and the returned revision is pinned
onto the reference; in no case is a build-and-upload performed. -/
theorem C5_no_source_decision_table (env : Env) (hc : HelperCfg) (ns store : Option String)
    (nm : String) (app : Application) (url : CharmURL)
    (hcharm : app.charm = some url) (hsrc : app.source = none) :
    (∀ r, url.revision = some r →
        helper env hc ns store nm app = (.ok (nm, urlToString url), []))
    ∧ (url.revision = none → ∀ ch rev, effChannel app = .ok ch → env.showRev url ch = .ok rev →
        helper env hc ns store nm app =
          (.ok (nm, urlToString { url with revision := some rev }), [.query nm]))
    ∧ (url.revision = none → ∀ ch e, effChannel app = .ok ch → env.showRev url ch = .error e →
        helper env hc ns store nm app = (.error e, [.query nm]))
    ∧ (url.revision = none → ∀ e, effChannel app = .error e →
        helper env hc ns store nm app = (.error e, []))
    ∧ (app.channel = none → effChannel app = .ok .stable)
    ∧ (∀ eff ∈ (helper env hc ns store nm app).2, eff ≠ .buildUpload nm) := by
  have hpin : ∀ r, url.revision = some r →
      helper env hc ns store nm app = (.ok (nm, urlToString url), []) := by
    intro r hr
    simp [helper, hcharm, hr]
  have hqok : url.revision = none → ∀ ch rev, effChannel app = .ok ch →
      env.showRev url ch = .ok rev →
      helper env hc ns store nm app =
        (.ok (nm, urlToString { url with revision := some rev }), [.query nm]) := by
    intro hr ch rev hech hsr
    simp [helper, hcharm, hr, hsrc, hech, hsr]
  have hqerr : url.revision = none → ∀ ch e, effChannel app = .ok ch →
      env.showRev url ch = .error e →
      helper env hc ns store nm app = (.error e, [.query nm]) := by
    intro hr ch e hech hsr
    simp [helper, hcharm, hr, hsrc, hech, hsr]
  have hcherr : url.revision = none → ∀ e, effChannel app = .error e →
      helper env hc ns store nm app = (.error e, []) := by
    intro hr e hech
    simp [helper, hcharm, hr, hsrc, hech]
  refine ⟨hpin, hqok, hqerr, hcherr, ?_, ?_⟩
  · intro hch
    simp [effChannel, hch]
  · intro eff heff
    cases hrev : url.revision with
    | some r =>
      rw [hpin r hrev] at heff
      cases heff
    | none =>
      cases hech : effChannel app with
      | error e =>
        rw [hcherr hrev e hech] at heff
        cases heff
      | ok ch =>
        cases hsr : env.showRev url ch with
        | error e =>
          rw [hqerr hrev ch e hech hsr] at heff
          simp only [List.mem_singleton] at heff
          subst heff
          simp
        | ok rev =>
          rw [hqok hrev ch rev hech hsr] at heff
          simp only [List.mem_singleton] at heff
          subst heff
          simp

def appQuery : Application := ⟨some ⟨some "ch", none, "c1", none⟩, none, none, []⟩

theorem C5_witness :
    helper envOk cfgSerial.toHelperCfg none (some "ch") "a" appQuery
      = (.ok ("a", "ch:c1-7"), [.query "a"]) := by
  have h := C5_no_source_decision_table envOk cfgSerial.toHelperCfg none (some "ch") "a"
    appQuery ⟨some "ch", none, "c1", none⟩ rfl rfl
  rw [h.2.1 rfl Channel.stable 7 rfl rfl]
  rfl

def appNoCharm : Application := ⟨none, none, none, []⟩

def bundleNoCharm : Bundle := ⟨some "bun", [("a", appNoCharm)], []⟩

def envNoCharm : Env :=
  ⟨.ok bundleNoCharm, .ok (), fun _ _ => .ok 7, fun _ _ _ _ _ => .ok "ch:upcharm-1",
    fun _ _ _ _ _ => .ok "cs:upcharm-1", .ok (), .ok (), .ok (), .ok (), .ok (), .ok ()⟩

theorem C6_counterexample :
    (publishModel pickHead schedEmpty envNoCharm cfgSerial).result = .error .panicMissingCharm
    ∧ Effect.load ∈ (publishModel pickHead schedEmpty envNoCharm cfgSerial).effects
    ∧ Effect.login ∈ (publishModel pickHead schedEmpty envNoCharm cfgSerial).effects
    ∧ "a" ∈ (publishModel pickHead schedEmpty envNoCharm cfgSerial).invoked := by
  refine ⟨rfl, by decide, by decide, by decide⟩

/-- C6 (amended): an application with no charm reference makes its
per-application closure abort with the `unwrap` panic on the missing
reference as soon as the closure is entered — regardless of whether a build
source is present — instead of an eagerly-checked `MissingCharmReference`
error value; the publish run has already loaded the bundle and logged in
when this happens (see the accompanying counterexample). -/
theorem C6_missing_charm_panics (env : Env) (hc : HelperCfg) (ns store : Option String)
    (nm : String) (app : Application) (h : app.charm = none) :
    helper env hc ns store nm app = (.error .panicMissingCharm, []) := by
  simp [helper, h]

theorem C6_witness :
    helper envNoCharm cfgSerial.toHelperCfg none (some "ch") "a" appNoCharm
      = (.error .panicMissingCharm, []) :=
  C6_missing_charm_panics envNoCharm cfgSerial.toHelperCfg none (some "ch") "a" appNoCharm rfl


theorem afterUpload_ok_name (hc : HelperCfg) (env : Env) (nm : String)
    (up : Except Err String) (v : String × String)
    (h : (afterUpload hc env nm up).1 = .ok v) : v.1 = nm := by
  cases up with
  | error e => simp [afterUpload] at h
  | ok rv =>
    by_cases hp : hc.pruneFlag = true
    · cases hpr : env.pruneRun with
      | error e => simp [afterUpload, hp, hpr] at h
      | ok u =>
        simp only [afterUpload, hp, hpr, if_true] at h
        simp only [Except.ok.injEq] at h
        rw [← h]
    · simp only [afterUpload, Bool.not_eq_true] at h
      rw [Bool.not_eq_true] at hp
      rw [hp] at h
      simp only [Bool.false_eq_true, if_false, Except.ok.injEq] at h
      rw [← h]

theorem helper_ok_name (env : Env) (hc : HelperCfg) (ns store : Option String)
    (nm : String) (app : Application) (v : String × String)
    (h : (helper env hc ns store nm app).1 = .ok v) : v.1 = nm := by
  cases hch : app.charm with
  | none => simp [helper, hch] at h
  | some url =>
    by_cases hrev : url.revision.isSome = true
    · simp only [helper, hch, hrev, if_true, Except.ok.injEq] at h
      rw [← h]
    · rw [Bool.not_eq_true] at hrev
      cases hsrc : app.source with
      | none =>
        cases hech : effChannel app with
        | error e => simp [helper, hch, hrev, hsrc, hech] at h
        | ok ch =>
          cases hsr : env.showRev url ch with
          | error e => simp [helper, hch, hrev, hsrc, hech, hsr] at h
          | ok rev =>
            simp only [helper, hch, hrev, Bool.false_eq_true, if_false, hsrc, hech, hsr,
              Except.ok.injEq] at h
            rw [← h]
      | some src =>
        cases hst : store with
        | none => simp [helper, hch, hrev, hsrc, hst] at h
        | some sk =>
          by_cases hsk : sk = "ch"
          · have heq : (helper env hc ns store nm app).1
                = (afterUpload hc env nm
                    (env.uploadCh nm ns hc.bundlePath hc.releaseTo hc.destructiveMode)).1 := by
              simp [helper, hch, hrev, hsrc, hst, hsk]
            rw [heq] at h
            exact afterUpload_ok_name hc env nm _ v h
          · by_cases hcs : sk = "cs"
            · have heq : (helper env hc ns store nm app).1
                  = (afterUpload hc env nm
                      (env.uploadCs nm ns hc.bundlePath hc.releaseTo hc.destructiveMode)).1 := by
                simp [helper, hch, hrev, hsrc, hst, hsk, hcs]
              rw [heq] at h
              exact afterUpload_ok_name hc env nm _ v h
            · simp [helper, hch, hrev, hsrc, hst, hsk, hcs] at h

/-- Values returned by the successful closures across the fan-out, in
bundle order (failed closures contribute nothing). -/
def okVals (env : Env) (hc : HelperCfg) (ns store : Option String) :
    List (String × Application) → List (String × String)
  | [] => []
  | p :: rest =>
    match (helper env hc ns store p.1 p.2).1 with
    | .ok v => v :: okVals env hc ns store rest
    | .error _ => okVals env hc ns store rest

theorem filterMap_parOuts_eq_okVals (env : Env) (hc : HelperCfg) (ns store : Option String)
    (apps : List (String × Application)) :
    (parOuts env hc ns store apps).filterMap (fun q => q.1.toOption)
      = okVals env hc ns store apps := by
  induction apps with
  | nil => rfl
  | cons p rest ih =>
    rw [parOuts, List.map_cons, List.filterMap_cons]
    rw [parOuts] at ih
    simp only [Except.toOption] at ih
    cases hr : (helper env hc ns store p.1 p.2).1 with
    | error e =>
      simp only [hr, Except.toOption, okVals]
      exact ih
    | ok v =>
      simp only [hr, Except.toOption, okVals]
      rw [ih]

theorem okVals_names (env : Env) (hc : HelperCfg) (ns store : Option String)
    (apps : List (String × Application))
    (hall : ∀ p ∈ apps, (unitRes env hc ns store p).isOk = true) :
    (okVals env hc ns store apps).map Prod.fst = apps.map Prod.fst := by
  induction apps with
  | nil => rfl
  | cons p rest ih =>
    have hp := hall p (by simp)
    rw [unitRes] at hp
    cases hr : (helper env hc ns store p.1 p.2).1 with
    | error e => rw [hr] at hp; simp [Except.isOk, Except.toBool] at hp
    | ok v =>
      rw [okVals, hr]
      simp only [List.map_cons]
      rw [helper_ok_name env hc ns store p.1 p.2 v hr]
      rw [ih (fun q hq => hall q (by simp [hq]))]

theorem collectSerial_all_ok (env : Env) (hc : HelperCfg) (ns store : Option String)
    (apps : List (String × Application))
    (hall : ∀ p ∈ apps, (unitRes env hc ns store p).isOk = true) :
    (collectSerial env hc ns store apps).result = .ok (okVals env hc ns store apps)
    ∧ (collectSerial env hc ns store apps).invoked = apps.map Prod.fst := by
  induction apps with
  | nil => exact ⟨rfl, rfl⟩
  | cons p rest ih =>
    have hp := hall p (by simp)
    rw [unitRes] at hp
    cases hu : helper env hc ns store p.1 p.2 with
    | mk r eff =>
      cases r with
      | error e =>
        rw [hu] at hp
        simp [Except.isOk, Except.toBool] at hp
      | ok v =>
        obtain ⟨ihr, ihi⟩ := ih (fun q hq => hall q (by simp [hq]))
        have hu1 : (helper env hc ns store p.1 p.2).1 = .ok v := by rw [hu]
        constructor
        · simp only [collectSerial, hu, ihr, okVals, hu1]
        · simp only [collectSerial, hu, ihr, ihi, List.map_cons]

theorem collectSerial_first_err (env : Env) (hc : HelperCfg) (ns store : Option String)
    (l₁ : List (String × Application)) (p : String × Application)
    (l₂ : List (String × Application)) (e : Err)
    (hok : ∀ q ∈ l₁, (unitRes env hc ns store q).isOk = true)
    (herr : unitRes env hc ns store p = .error e) :
    (collectSerial env hc ns store (l₁ ++ p :: l₂)).result = .error e
    ∧ (collectSerial env hc ns store (l₁ ++ p :: l₂)).invoked = l₁.map Prod.fst ++ [p.1] := by
  induction l₁ with
  | nil =>
    cases hu : helper env hc ns store p.1 p.2 with
    | mk r eff =>
      rw [unitRes, hu] at herr
      simp only at herr
      subst herr
      exact ⟨by simp [collectSerial, hu], by simp [collectSerial, hu]⟩
  | cons q l₁' ih =>
    have hq := hok q (by simp)
    rw [unitRes] at hq
    cases hu : helper env hc ns store q.1 q.2 with
    | mk r eff =>
      cases r with
      | error e' =>
        rw [hu] at hq
        simp [Except.isOk, Except.toBool] at hq
      | ok v =>
        obtain ⟨ihr, ihi⟩ := ih (fun q' hq' => hok q' (by simp [hq']))
        constructor
        · simp only [List.cons_append, collectSerial, hu, List.append_eq, ihr]
        · simp only [List.cons_append, collectSerial, hu, List.append_eq, ihr, ihi,
            List.map_cons]

theorem collectSerial_ok_inv (env : Env) (hc : HelperCfg) (ns store : Option String)
    (apps : List (String × Application)) (pairs : List (String × String))
    (h : (collectSerial env hc ns store apps).result = .ok pairs) :
    (∀ p ∈ apps, (unitRes env hc ns store p).isOk = true)
    ∧ pairs = okVals env hc ns store apps := by
  induction apps generalizing pairs with
  | nil =>
    simp only [collectSerial] at h
    injection h with h2
    constructor
    · intro p hp
      cases hp
    · rw [← h2]
      rfl
  | cons p rest ih =>
    cases hu : helper env hc ns store p.1 p.2 with
    | mk r eff =>
      cases r with
      | error e =>
        simp only [collectSerial, hu] at h
        cases h
      | ok v =>
        simp only [collectSerial, hu] at h
        cases hrest : (collectSerial env hc ns store rest).result with
        | error e =>
          rw [hrest] at h
          cases h
        | ok vs =>
          rw [hrest] at h
          simp only [Except.ok.injEq] at h
          obtain ⟨hall, hvs⟩ := ih vs hrest
          have hu1 : (helper env hc ns store p.1 p.2).1 = .ok v := by rw [hu]
          constructor
          · intro q hq
            rcases List.mem_cons.1 hq with hq | hq
            · subst hq
              rw [unitRes, hu]
              rfl
            · exact hall q hq
          · rw [← h, okVals, hu1, hvs]

theorem parErrs_nil_iff (env : Env) (hc : HelperCfg) (ns store : Option String)
    (apps : List (String × Application)) :
    parErrs env hc ns store apps = []
      ↔ ∀ p ∈ apps, (unitRes env hc ns store p).isOk = true := by
  rw [parErrs, List.filterMap_eq_nil_iff]
  constructor
  · intro h p hp
    have hmem : helper env hc ns store p.1 p.2 ∈ parOuts env hc ns store apps := by
      rw [parOuts]
      exact List.mem_map_of_mem _ hp
    have := h (helper env hc ns store p.1 p.2) hmem
    rw [unitRes]
    cases hr : (helper env hc ns store p.1 p.2).1 with
    | error e => simp only [hr] at this; cases this
    | ok v => rfl
  · intro h q hq
    rw [parOuts, List.mem_map] at hq
    obtain ⟨p, hp, hpq⟩ := hq
    have := h p hp
    rw [unitRes] at this
    cases hr : (helper env hc ns store p.1 p.2).1 with
    | error e => rw [hr] at this; simp [Except.isOk, Except.toBool] at this
    | ok v =>
      subst hpq
      simp only [hr]

theorem mem_parErrs (env : Env) (hc : HelperCfg) (ns store : Option String)
    (apps : List (String × Application)) (e : Err) :
    e ∈ parErrs env hc ns store apps
      ↔ ∃ p ∈ apps, unitRes env hc ns store p = .error e := by
  rw [parErrs, List.mem_filterMap]
  constructor
  · rintro ⟨q, hq, hqe⟩
    rw [parOuts, List.mem_map] at hq
    obtain ⟨p, hp, hpq⟩ := hq
    refine ⟨p, hp, ?_⟩
    rw [unitRes]
    subst hpq
    cases hr : (helper env hc ns store p.1 p.2).1 with
    | error e' =>
      simp only [hr, Option.some.injEq] at hqe
      rw [hqe]
    | ok v => simp only [hr] at hqe; cases hqe
  · rintro ⟨p, hp, hpe⟩
    refine ⟨helper env hc ns store p.1 p.2, ?_, ?_⟩
    · rw [parOuts]
      exact List.mem_map_of_mem _ hp
    · rw [unitRes] at hpe
      simp only [hpe]

theorem collectParallel_invoked_ok (pick : List Err → Err) (sched : ParSchedule) (env : Env)
    (hc : HelperCfg) (ns store : Option String) (apps : List (String × Application))
    (hall : ∀ p ∈ apps, (unitRes env hc ns store p).isOk = true) :
    (collectParallel pick sched env hc ns store apps).invoked = apps.map Prod.fst := by
  have hnil : parErrs env hc ns store apps = [] := (parErrs_nil_iff env hc ns store apps).2 hall
  simp only [collectParallel, hnil]

theorem collectParallel_all_ok (pick : List Err → Err) (sched : ParSchedule) (env : Env)
    (hc : HelperCfg) (ns store : Option String) (apps : List (String × Application))
    (hall : ∀ p ∈ apps, (unitRes env hc ns store p).isOk = true) :
    (collectParallel pick sched env hc ns store apps).result
      = .ok (okVals env hc ns store apps) := by
  have hnil : parErrs env hc ns store apps = [] := (parErrs_nil_iff env hc ns store apps).2 hall
  simp only [collectParallel, hnil]
  rw [filterMap_parOuts_eq_okVals]

theorem collectParallel_err (pick : List Err → Err) (sched : ParSchedule) (env : Env)
    (hc : HelperCfg) (ns store : Option String) (apps : List (String × Application))
    (e : Err) (rest : List Err) (h : parErrs env hc ns store apps = e :: rest) :
    (collectParallel pick sched env hc ns store apps).result = .error (pick (e :: rest)) := by
  simp only [collectParallel, h]

theorem collectParallel_ok_inv (pick : List Err → Err) (sched : ParSchedule) (env : Env)
    (hc : HelperCfg) (ns store : Option String) (apps : List (String × Application))
    (pairs : List (String × String))
    (h : (collectParallel pick sched env hc ns store apps).result = .ok pairs) :
    (∀ p ∈ apps, (unitRes env hc ns store p).isOk = true)
    ∧ pairs = okVals env hc ns store apps := by
  cases he : parErrs env hc ns store apps with
  | nil =>
    simp only [collectParallel, he] at h
    injection h with h2
    refine ⟨(parErrs_nil_iff env hc ns store apps).1 he, ?_⟩
    rw [← h2]
    exact filterMap_parOuts_eq_okVals env hc ns store apps
  | cons e rest =>
    simp only [collectParallel, he] at h
    cases h

def bundleTwoBad : Bundle := ⟨some "bun", [("a", appNoCharm), ("b", appNoCharm)], []⟩

def envTwoBad : Env :=
  ⟨.ok bundleTwoBad, .ok (), fun _ _ => .ok 7, fun _ _ _ _ _ => .ok "ch:upcharm-1",
    fun _ _ _ _ _ => .ok "cs:upcharm-1", .ok (), .ok (), .ok (), .ok (), .ok (), .ok ()⟩

theorem C3_counterexample :
    ("b", appNoCharm) ∈ bundleTwoBad.applications
    ∧ (publishModel pickHead schedEmpty envTwoBad cfgSerial).result = .error .panicMissingCharm
    ∧ "b" ∉ (publishModel pickHead schedEmpty envTwoBad cfgSerial).invoked :=
  ⟨by decide, rfl, by decide⟩

/-- C3 (amended): the fan-out is fail-fast in dispatch under both policies.
Under Serial the `collect` into `Result` short-circuits: closures run one at
a time in bundle order up to and including the first failing application,
whose error is returned, and later applications' closures are never entered.
Under Parallel, rayon's `Result` collection halts dispatching further
closures once an error has been seen, so on failure only a
scheduler-dependent subset of closures runs (closures already started run to
completion), and an error raised by one of the failing closures — not
necessarily the first — is returned.  Only on an all-success run does every
application's closure run, under either policy. -/
theorem C3_fanout_policies (pick : List Err → Err) (sched : ParSchedule) (env : Env)
    (hc : HelperCfg) (ns store : Option String) (apps : List (String × Application)) :
    ((∀ p ∈ apps, (unitRes env hc ns store p).isOk = true) →
      (collectSerial env hc ns store apps).result.isOk = true
      ∧ (collectSerial env hc ns store apps).invoked = apps.map Prod.fst
      ∧ (collectParallel pick sched env hc ns store apps).result.isOk = true
      ∧ (collectParallel pick sched env hc ns store apps).invoked = apps.map Prod.fst)
    ∧ (∀ l₁ p l₂ e, apps = l₁ ++ p :: l₂ →
        (∀ q ∈ l₁, (unitRes env hc ns store q).isOk = true) →
        unitRes env hc ns store p = .error e →
        (collectSerial env hc ns store apps).result = .error e
        ∧ (collectSerial env hc ns store apps).invoked = l₁.map Prod.fst ++ [p.1]
        ∧ (collectParallel pick sched env hc ns store apps).invoked = sched.invokedOnErr
        ∧ (collectParallel pick sched env hc ns store apps).result.isOk = false
        ∧ ((∀ l, l ≠ [] → pick l ∈ l) →
            ∃ e2, (collectParallel pick sched env hc ns store apps).result = .error e2
              ∧ ∃ q ∈ apps, unitRes env hc ns store q = .error e2)) := by
  constructor
  · intro hall
    obtain ⟨h1, h2⟩ := collectSerial_all_ok env hc ns store apps hall
    refine ⟨by rw [h1]; rfl, h2, ?_,
      collectParallel_invoked_ok pick sched env hc ns store apps hall⟩
    rw [collectParallel_all_ok pick sched env hc ns store apps hall]
    rfl
  · intro l₁ p l₂ e happ hok herr
    subst happ
    obtain ⟨h1, h2⟩ := collectSerial_first_err env hc ns store l₁ p l₂ e hok herr
    have hmem : e ∈ parErrs env hc ns store (l₁ ++ p :: l₂) :=
      (mem_parErrs env hc ns store _ e).2 ⟨p, by simp, herr⟩
    cases he : parErrs env hc ns store (l₁ ++ p :: l₂) with
    | nil => rw [he] at hmem; cases hmem
    | cons e0 rest0 =>
      have hres := collectParallel_err pick sched env hc ns store _ e0 rest0 he
      refine ⟨h1, h2, by simp only [collectParallel, he], by rw [hres]; rfl, ?_⟩
      intro hpick
      refine ⟨pick (e0 :: rest0), hres, ?_⟩
      have hmem2 : pick (e0 :: rest0) ∈ parErrs env hc ns store (l₁ ++ p :: l₂) := by
        rw [he]
        exact hpick (e0 :: rest0) (by simp)
      exact (mem_parErrs env hc ns store _ (pick (e0 :: rest0))).1 hmem2

theorem C3_witness :
    (collectSerial envTwoBad cfgSerial.toHelperCfg none (some "ch")
        bundleTwoBad.applications).result = .error .panicMissingCharm
    ∧ (collectSerial envTwoBad cfgSerial.toHelperCfg none (some "ch")
        bundleTwoBad.applications).invoked = ["a"]
    ∧ (collectParallel pickHead schedEmpty envTwoBad cfgSerial.toHelperCfg none (some "ch")
        bundleTwoBad.applications).result.isOk = false := by
  have h := (C3_fanout_policies pickHead schedEmpty envTwoBad cfgSerial.toHelperCfg none
    (some "ch") bundleTwoBad.applications).2 [] ("a", appNoCharm) [("b", appNoCharm)]
    .panicMissingCharm rfl (fun q hq => absurd hq (List.not_mem_nil q)) rfl
  exact ⟨h.1, h.2.1, h.2.2.2.1⟩


theorem serial_set_serial (c : PublishConfig) (x : Bool) :
    ({ c with serial := x } : PublishConfig).serial = x := rfl

theorem toHelperCfg_set_serial (c : PublishConfig) (x : Bool) :
    ({ c with serial := x } : PublishConfig).toHelperCfg = c.toHelperCfg := rfl

theorem nsOf_set_serial (c : PublishConfig) (bu : CharmURL) (x : Bool) :
    nsOf { c with serial := x } bu = nsOf c bu := rfl

theorem publishModel_load_err (pick : List Err → Err) (sched : ParSchedule) (env : Env)
    (c : PublishConfig) (e : Err)
    (hg : (c.prune && !c.serial) = false) (hload : env.load = .error e) :
    publishModel pick sched env c = ⟨.error e, [.load], [], none, none⟩ := by
  rw [publishModel, hg]
  simp only [Bool.false_eq_true, if_false, hload]

theorem publishModel_login_err (pick : List Err → Err) (sched : ParSchedule) (env : Env)
    (c : PublishConfig) (b : Bundle) (e : Err) (hg : (c.prune && !c.serial) = false)
    (hload : env.load = .ok b) (hlogin : env.login = .error e) :
    publishModel pick sched env c = ⟨.error e, [.load, .login], [], none, none⟩ := by
  rw [publishModel, hg]
  simp only [Bool.false_eq_true, if_false, hload, hlogin]

theorem publishModel_url_err (pick : List Err → Err) (sched : ParSchedule) (env : Env)
    (c : PublishConfig) (b : Bundle) (e : Err) (hg : (c.prune && !c.serial) = false)
    (hload : env.load = .ok b) (hlogin : env.login = .ok ())
    (hurl : bundleUrlOf c b = .error e) :
    publishModel pick sched env c = ⟨.error e, [.load, .login], [], none, none⟩ := by
  rw [publishModel, hg]
  simp only [Bool.false_eq_true, if_false, hload, hlogin, hurl]

theorem publishModel_steps (pick : List Err → Err) (sched : ParSchedule) (env : Env)
    (c : PublishConfig) (b : Bundle) (bu : CharmURL) (hg : (c.prune && !c.serial) = false)
    (hload : env.load = .ok b) (hlogin : env.login = .ok ())
    (hurl : bundleUrlOf c b = .ok bu) :
    publishModel pick sched env c =
      publishTail env b bu
        (if c.serial then collectSerial env c.toHelperCfg (nsOf c bu) bu.store b.applications
         else collectParallel pick sched env c.toHelperCfg (nsOf c bu) bu.store
           b.applications) := by
  rw [publishModel, hg]
  simp only [Bool.false_eq_true, if_false, hload, hlogin, hurl]

/-- C9: for a fixed bundle and the pure per-application closure (all
collaborators modelled as deterministic oracles), the serial and the
parallel policy agree: the overall run succeeds under one exactly when it
succeeds under the other, the saved pinned-revision bundle is identical, and
the fan-out collects exactly the same name-to-revision pairs whenever it
succeeds — only the order of execution (and, on failure, which error
surfaces) can differ. -/
theorem C9_serial_parallel_equiv (pick : List Err → Err) (sched : ParSchedule) (env : Env)
    (c : PublishConfig) (hprune : c.prune = false) :
    ((publishModel pick sched env { c with serial := true }).result.isOk
      = (publishModel pick sched env { c with serial := false }).result.isOk)
    ∧ (publishModel pick sched env { c with serial := true }).saved
      = (publishModel pick sched env { c with serial := false }).saved
    ∧ (∀ ns store apps pairs,
        (collectSerial env c.toHelperCfg ns store apps).result = .ok pairs
          ↔ (collectParallel pick sched env c.toHelperCfg ns store apps).result
              = .ok pairs) := by
  have hfan : ∀ (ns store : Option String) apps pairs,
      (collectSerial env c.toHelperCfg ns store apps).result = .ok pairs
        ↔ (collectParallel pick sched env c.toHelperCfg ns store apps).result = .ok pairs := by
    intro ns store apps pairs
    constructor
    · intro h
      obtain ⟨hall, hp⟩ := collectSerial_ok_inv env c.toHelperCfg ns store apps pairs h
      rw [collectParallel_all_ok pick sched env c.toHelperCfg ns store apps hall, hp]
    · intro h
      obtain ⟨hall, hp⟩ :=
        collectParallel_ok_inv pick sched env c.toHelperCfg ns store apps pairs h
      rw [(collectSerial_all_ok env c.toHelperCfg ns store apps hall).1, hp]
  have hgt : (({ c with serial := true } : PublishConfig).prune
      && !({ c with serial := true } : PublishConfig).serial) = false := by
    simp [hprune]
  have hgf : (({ c with serial := false } : PublishConfig).prune
      && !({ c with serial := false } : PublishConfig).serial) = false := by
    simp [hprune]
  have main : ((publishModel pick sched env { c with serial := true }).result.isOk
      = (publishModel pick sched env { c with serial := false }).result.isOk)
      ∧ (publishModel pick sched env { c with serial := true }).saved
      = (publishModel pick sched env { c with serial := false }).saved := by
    cases hload : env.load with
    | error e =>
      rw [publishModel_load_err pick sched env _ e hgt hload,
        publishModel_load_err pick sched env _ e hgf hload]
      exact ⟨rfl, rfl⟩
    | ok b =>
      cases hlogin : env.login with
      | error e =>
        rw [publishModel_login_err pick sched env _ b e hgt hload hlogin,
          publishModel_login_err pick sched env _ b e hgf hload hlogin]
        exact ⟨rfl, rfl⟩
      | ok u =>
        cases hurl : bundleUrlOf c b with
        | error e =>
          rw [publishModel_url_err pick sched env _ b e hgt hload hlogin hurl,
            publishModel_url_err pick sched env _ b e hgf hload hlogin hurl]
          exact ⟨rfl, rfl⟩
        | ok bu =>
          rw [publishModel_steps pick sched env _ b bu hgt hload hlogin hurl,
            publishModel_steps pick sched env _ b bu hgf hload hlogin hurl]
          simp only [serial_set_serial, toHelperCfg_set_serial, nsOf_set_serial,
            eq_self_iff_true, if_true, Bool.false_eq_true, if_false]
          cases hs : (collectSerial env c.toHelperCfg (nsOf c bu) bu.store
              b.applications).result with
          | ok pairs =>
            have hp := (hfan (nsOf c bu) bu.store b.applications pairs).1 hs
            exact ⟨by simp only [publishTail, hs, hp], by simp only [publishTail, hs, hp]⟩
          | error e =>
            cases hp : (collectParallel pick sched env c.toHelperCfg (nsOf c bu) bu.store
                b.applications).result with
            | ok pairs =>
              have := (hfan (nsOf c bu) bu.store b.applications pairs).2 hp
              rw [this] at hs
              cases hs
            | error e' =>
              constructor
              · simp only [publishTail, hs, hp, publishTailCore, Except.isOk, Except.toBool]
              · simp only [publishTail, hs, hp, publishTailCore]
  exact ⟨main.1, main.2, hfan⟩

theorem lookupApp_setRevision_self (apps : List (String × Application)) (n : String)
    (u : CharmURL) (a : Application) (h : lookupApp apps n = some a) :
    lookupApp (setRevision apps n u) n = some { a with charm := some u, channel := none } := by
  induction apps with
  | nil => cases h
  | cons p rest ih =>
    rw [show setRevision (p :: rest) n u
        = (if p.1 = n then (p.1, { p.2 with charm := some u, channel := none }) else p)
          :: setRevision rest n u from rfl]
    rw [lookupApp] at h
    by_cases hpn : p.1 = n
    · rw [if_pos hpn] at h ⊢
      injection h with h2
      rw [lookupApp, if_pos hpn, h2]
    · rw [if_neg hpn] at h ⊢
      rw [lookupApp, if_neg hpn]
      exact ih h

theorem lookupApp_setRevision_other (apps : List (String × Application)) (n : String)
    (u : CharmURL) (m : String) (h : m ≠ n) :
    lookupApp (setRevision apps n u) m = lookupApp apps m := by
  induction apps with
  | nil => rfl
  | cons p rest ih =>
    rw [show setRevision (p :: rest) n u
        = (if p.1 = n then (p.1, { p.2 with charm := some u, channel := none }) else p)
          :: setRevision rest n u from rfl]
    by_cases hpn : p.1 = n
    · rw [if_pos hpn]
      have hpm : ¬ p.1 = m := fun hx => h (by rw [← hx, hpn])
      rw [lookupApp, if_neg hpm, ih, lookupApp, if_neg hpm]
    · rw [if_neg hpn]
      rw [lookupApp, ih, lookupApp]

theorem applyRevisions_frame (pairs : List (String × String)) :
    ∀ apps merged, applyRevisions apps pairs = .ok merged →
      ∀ m, m ∉ pairs.map Prod.fst → lookupApp merged m = lookupApp apps m := by
  induction pairs with
  | nil =>
    intro apps merged h m _
    simp only [applyRevisions] at h
    injection h with h2
    rw [h2]
  | cons q rest ih =>
    intro apps merged h m hm
    simp only [applyRevisions] at h
    cases hl : lookupApp apps q.1 with
    | none =>
      rw [hl] at h
      simp only [Option.isSome_none, Bool.false_eq_true, if_false] at h
      cases h
    | some a0 =>
      rw [hl] at h
      simp only [Option.isSome_some, eq_self_iff_true, if_true] at h
      cases hp : parseCharmURL q.2 with
      | none => rw [hp] at h; cases h
      | some u =>
        rw [hp] at h
        have hm1 : m ∉ rest.map Prod.fst := fun hx => hm (by simp [hx])
        have hmq : m ≠ q.1 := fun hx => hm (by simp [hx])
        rw [ih (setRevision apps q.1 u) merged h m hm1]
        exact lookupApp_setRevision_other apps q.1 u m hmq

theorem applyRevisions_ok_lookup (pairs : List (String × String)) :
    ∀ apps merged, (pairs.map Prod.fst).Nodup →
      applyRevisions apps pairs = .ok merged →
      ∀ q ∈ pairs, ∃ u a0,
        parseCharmURL q.2 = some u
        ∧ lookupApp apps q.1 = some a0
        ∧ lookupApp merged q.1 = some { a0 with charm := some u, channel := none } := by
  induction pairs with
  | nil =>
    intro apps merged _ _ q hq
    cases hq
  | cons q0 rest ih =>
    intro apps merged hnd h q hq
    have hnd' : (q0.1 :: rest.map Prod.fst).Nodup := by simpa using hnd
    simp only [applyRevisions] at h
    cases hl : lookupApp apps q0.1 with
    | none =>
      rw [hl] at h
      simp only [Option.isSome_none, Bool.false_eq_true, if_false] at h
      cases h
    | some a0 =>
      rw [hl] at h
      simp only [Option.isSome_some, eq_self_iff_true, if_true] at h
      cases hp : parseCharmURL q0.2 with
      | none => rw [hp] at h; cases h
      | some u =>
        rw [hp] at h
        rcases List.mem_cons.1 hq with hq0 | hqr
        · subst hq0
          refine ⟨u, a0, hp, hl, ?_⟩
          have hq0nr : q.1 ∉ rest.map Prod.fst := (List.nodup_cons.1 hnd').1
          rw [applyRevisions_frame rest _ merged h q.1 hq0nr]
          exact lookupApp_setRevision_self apps q.1 u a0 hl
        · have hndr : (rest.map Prod.fst).Nodup := (List.nodup_cons.1 hnd').2
          obtain ⟨u', a0', hp', hl', hm'⟩ := ih (setRevision apps q0.1 u) merged hndr h q hqr
          have hq1 : q.1 ≠ q0.1 := by
            intro hx
            have hmem : q.1 ∈ rest.map Prod.fst := List.mem_map_of_mem Prod.fst hqr
            rw [hx] at hmem
            exact (List.nodup_cons.1 hnd').1 hmem
          rw [lookupApp_setRevision_other apps q0.1 u q.1 hq1] at hl'
          exact ⟨u', a0', hp', hl', hm'⟩

theorem publishTailCore_ok_inv (env : Env) (b : Bundle) (bu : CharmURL)
    (r : Except Err (List (String × String)))
    (hok : (publishTailCore env b bu r).1.isOk = true) :
    ∃ pairs merged, r = .ok pairs
      ∧ applyRevisions b.applications pairs = .ok merged
      ∧ (publishTailCore env b bu r).2.1 = some { b with applications := merged }
      ∧ (publishTailCore env b bu r).2.2 = some b := by
  cases r with
  | error e => simp [publishTailCore, Except.isOk, Except.toBool] at hok
  | ok pairs =>
    cases ham : applyRevisions b.applications pairs with
    | error e => simp [publishTailCore, ham, Except.isOk, Except.toBool] at hok
    | ok merged =>
      cases hsv : env.saveBundleRun with
      | error e => simp [publishTailCore, ham, hsv, Except.isOk, Except.toBool] at hok
      | ok u1 =>
        cases hcr : env.copyReadmeRun with
        | error e => simp [publishTailCore, ham, hsv, hcr, Except.isOk, Except.toBool] at hok
        | ok u2 =>
          cases hcc : env.copyCharmcraftRun with
          | error e =>
            simp [publishTailCore, ham, hsv, hcr, hcc, Except.isOk, Except.toBool] at hok
          | ok u3 =>
            cases hst : bu.store with
            | none =>
              simp [publishTailCore, ham, hsv, hcr, hcc, hst, Except.isOk, Except.toBool] at hok
            | some sk =>
              by_cases hch : sk = "ch"
              · cases hbu : env.bundleUploadCh with
                | error e =>
                  simp [publishTailCore, ham, hsv, hcr, hcc, hst, hch, hbu, Except.isOk,
                    Except.toBool] at hok
                | ok u4 =>
                  exact ⟨pairs, merged, rfl, ham,
                    by simp [publishTailCore, ham, hsv, hcr, hcc, hst, hch, hbu],
                    by simp [publishTailCore, ham, hsv, hcr, hcc, hst, hch, hbu]⟩
              · by_cases hcs : sk = "cs"
                · cases hbu : env.bundleUploadCs with
                  | error e =>
                    simp [publishTailCore, ham, hsv, hcr, hcc, hst, hch, hcs, hbu, Except.isOk,
                      Except.toBool] at hok
                  | ok u4 =>
                    exact ⟨pairs, merged, rfl, ham,
                      by simp [publishTailCore, ham, hsv, hcr, hcc, hst, hch, hcs, hbu],
                      by simp [publishTailCore, ham, hsv, hcr, hcc, hst, hch, hcs, hbu]⟩
                · simp [publishTailCore, ham, hsv, hcr, hcc, hst, hch, hcs, Except.isOk,
                    Except.toBool] at hok

theorem collectSerial_err_exists (env : Env) (hc : HelperCfg) (ns store : Option String)
    (apps : List (String × Application))
    (h : ∃ p ∈ apps, (unitRes env hc ns store p).isOk = false) :
    ∃ e, (collectSerial env hc ns store apps).result = .error e
      ∧ ∃ p ∈ apps, unitRes env hc ns store p = .error e := by
  induction apps with
  | nil =>
    obtain ⟨p, hp, _⟩ := h
    cases hp
  | cons p rest ih =>
    cases hu : helper env hc ns store p.1 p.2 with
    | mk r eff =>
      cases r with
      | error e =>
        refine ⟨e, ?_, ⟨p, by simp, by rw [unitRes, hu]⟩⟩
        simp only [collectSerial, hu]
      | ok v =>
        obtain ⟨q, hq, hqerr⟩ := h
        rcases List.mem_cons.1 hq with hq | hq
        · subst hq
          rw [unitRes, hu] at hqerr
          simp [Except.isOk, Except.toBool] at hqerr
        · obtain ⟨e, her, q', hq', hq'e⟩ := ih ⟨q, hq, hqerr⟩
          refine ⟨e, ?_, ⟨q', by simp [hq'], hq'e⟩⟩
          simp only [collectSerial, hu, her]

/-- C4: whenever some per-application closure raises an error, `publish`
returns an error raised by one of the failing closures, and the merge and
save never happen: no pinned-revision bundle is persisted. -/
theorem C4_unit_error_atomic (pick : List Err → Err) (sched : ParSchedule) (env : Env)
    (c : PublishConfig) (b : Bundle) (bu : CharmURL)
    (hpick : ∀ l, l ≠ [] → pick l ∈ l)
    (hg : (c.prune && !c.serial) = false)
    (hload : env.load = .ok b)
    (hlogin : env.login = .ok ())
    (hurl : bundleUrlOf c b = .ok bu)
    (herr : ∃ p ∈ b.applications,
        (unitRes env c.toHelperCfg (nsOf c bu) bu.store p).isOk = false) :
    (publishModel pick sched env c).saved = none
    ∧ ∃ e, (publishModel pick sched env c).result = .error e
        ∧ ∃ p ∈ b.applications,
            unitRes env c.toHelperCfg (nsOf c bu) bu.store p = .error e := by
  rw [publishModel_steps pick sched env c b bu hg hload hlogin hurl]
  cases hserial : c.serial with
  | true =>
    simp only [eq_self_iff_true, if_true]
    obtain ⟨e, her, hw⟩ :=
      collectSerial_err_exists env c.toHelperCfg (nsOf c bu) bu.store b.applications herr
    refine ⟨?_, e, ?_, hw⟩
    · simp only [publishTail, her, publishTailCore]
    · simp only [publishTail, her, publishTailCore]
  | false =>
    simp only [Bool.false_eq_true, if_false]
    have hne : parErrs env c.toHelperCfg (nsOf c bu) bu.store b.applications ≠ [] := by
      intro hnil
      obtain ⟨p, hp, hperr⟩ := herr
      have := (parErrs_nil_iff env c.toHelperCfg (nsOf c bu) bu.store b.applications).1 hnil p hp
      rw [this] at hperr
      cases hperr
    cases he : parErrs env c.toHelperCfg (nsOf c bu) bu.store b.applications with
    | nil => exact absurd he hne
    | cons e0 rest0 =>
      have hres := collectParallel_err pick sched env c.toHelperCfg (nsOf c bu) bu.store
        b.applications e0 rest0 he
      have hmem : pick (e0 :: rest0)
          ∈ parErrs env c.toHelperCfg (nsOf c bu) bu.store b.applications := by
        rw [he]
        exact hpick (e0 :: rest0) (by simp)
      have hex := (mem_parErrs env c.toHelperCfg (nsOf c bu) bu.store b.applications
        (pick (e0 :: rest0))).1 hmem
      refine ⟨?_, pick (e0 :: rest0), ?_, hex⟩
      · simp only [publishTail, hres, publishTailCore]
      · simp only [publishTail, hres, publishTailCore]

theorem C4_witness :
    (publishModel pickHead schedEmpty envTwoBad cfgSerial).saved = none
    ∧ (publishModel pickHead schedEmpty envTwoBad cfgSerial).result
        = .error .panicMissingCharm :=
  ⟨(C4_unit_error_atomic pickHead schedEmpty envTwoBad cfgSerial bundleTwoBad
      ⟨some "ch", none, "bun", none⟩
      (fun l hl => by
        cases l with
        | nil => exact absurd rfl hl
        | cons a t => exact List.mem_cons_self a t)
      rfl rfl rfl rfl
      ⟨("a", appNoCharm), by decide, rfl⟩).1,
    rfl⟩

theorem C9_witness :
    ((publishModel pickHead schedEmpty envOk { cfgSerial with serial := true }).result.isOk
      = (publishModel pickHead schedEmpty envOk
          { cfgSerial with serial := false }).result.isOk)
    ∧ (publishModel pickHead schedEmpty envOk { cfgSerial with serial := true }).saved
      = (publishModel pickHead schedEmpty envOk { cfgSerial with serial := false }).saved := by
  have h := C9_serial_parallel_equiv pickHead schedEmpty envOk cfgSerial rfl
  exact ⟨h.1, h.2.1⟩

/-- C10: when `publish` succeeds on a bundle with unique application keys,
the bundle it saved is the loaded bundle's clone in which every application
named in the resolution results (which cover every application) has its
charm replaced by the parsed resolved-revision reference and its channel
override cleared, while the originally loaded bundle value is what is handed,
unmodified, to the final store upload. -/
theorem C10_saved_bundle (pick : List Err → Err) (sched : ParSchedule) (env : Env)
    (c : PublishConfig) (b : Bundle)
    (hnd : (b.applications.map Prod.fst).Nodup)
    (hload : env.load = .ok b)
    (hok : (publishModel pick sched env c).result.isOk = true) :
    ∃ pairs merged,
      applyRevisions b.applications pairs = .ok merged
      ∧ pairs.map Prod.fst = b.applications.map Prod.fst
      ∧ (publishModel pick sched env c).saved = some { b with applications := merged }
      ∧ (publishModel pick sched env c).finalUploadOf = some b
      ∧ ∀ q ∈ pairs, ∃ u a0,
          parseCharmURL q.2 = some u
          ∧ lookupApp b.applications q.1 = some a0
          ∧ lookupApp merged q.1 = some { a0 with charm := some u, channel := none } := by
  cases hg : (c.prune && !c.serial) with
  | true =>
    rw [publishModel, hg] at hok
    simp [Except.isOk, Except.toBool] at hok
  | false =>
    cases hlogin : env.login with
    | error e =>
      rw [publishModel_login_err pick sched env c b e hg hload hlogin] at hok
      simp [Except.isOk, Except.toBool] at hok
    | ok u =>
      cases hurl : bundleUrlOf c b with
      | error e =>
        rw [publishModel_url_err pick sched env c b e hg hload hlogin hurl] at hok
        simp [Except.isOk, Except.toBool] at hok
      | ok bu =>
        rw [publishModel_steps pick sched env c b bu hg hload hlogin hurl] at hok ⊢
        cases hserial : c.serial with
        | true =>
          rw [hserial] at hok
          simp only [eq_self_iff_true, if_true] at hok ⊢
          have hok' : (publishTailCore env b bu
              (collectSerial env c.toHelperCfg (nsOf c bu) bu.store
                b.applications).result).1.isOk = true := hok
          obtain ⟨pairs, merged, hf, ham, hsv, hfin⟩ :=
            publishTailCore_ok_inv env b bu _ hok'
          obtain ⟨hall, hpv⟩ := collectSerial_ok_inv env c.toHelperCfg (nsOf c bu) bu.store
            b.applications pairs hf
          have hnames : pairs.map Prod.fst = b.applications.map Prod.fst := by
            rw [hpv]
            exact okVals_names env c.toHelperCfg (nsOf c bu) bu.store b.applications hall
          refine ⟨pairs, merged, ham, hnames, hsv, hfin, ?_⟩
          exact applyRevisions_ok_lookup pairs b.applications merged
            (by rw [hnames]; exact hnd) ham
        | false =>
          rw [hserial] at hok
          simp only [Bool.false_eq_true, if_false] at hok ⊢
          have hok' : (publishTailCore env b bu
              (collectParallel pick sched env c.toHelperCfg (nsOf c bu) bu.store
                b.applications).result).1.isOk = true := hok
          obtain ⟨pairs, merged, hf, ham, hsv, hfin⟩ :=
            publishTailCore_ok_inv env b bu _ hok'
          obtain ⟨hall, hpv⟩ := collectParallel_ok_inv pick sched env c.toHelperCfg
            (nsOf c bu) bu.store b.applications pairs hf
          have hnames : pairs.map Prod.fst = b.applications.map Prod.fst := by
            rw [hpv]
            exact okVals_names env c.toHelperCfg (nsOf c bu) bu.store b.applications hall
          refine ⟨pairs, merged, ham, hnames, hsv, hfin, ?_⟩
          exact applyRevisions_ok_lookup pairs b.applications merged
            (by rw [hnames]; exact hnd) ham

theorem C7_witness :
    (([(0, 1, "a")] : List (Nat × Nat × String)).length = [("a", "b:x")].length)
    ∧ ((0, 1, "a") : Nat × Nat × String).2.2 = ifaceOf "a" := by
  have h := C7_amended_edges ["a", "b"] [("a", "b:x")] [(0, 1, "a")] rfl
  exact ⟨h.1, (h.2.1 (("a", "b:x"), (0, 1, "a")) (by decide)).2.2⟩

theorem C10_witness :
    (publishModel pickHead schedEmpty envOk cfgSerial).finalUploadOf = some bundleOk
    ∧ (publishModel pickHead schedEmpty envOk cfgSerial).saved
        = some ⟨some "bun", [("a", ⟨some urlPinned, none, none, []⟩)], []⟩ := by
  obtain ⟨pairs, merged, ham, hnames, hsv, hfin, hlook⟩ :=
    C10_saved_bundle pickHead schedEmpty envOk cfgSerial bundleOk (by decide) rfl rfl
  exact ⟨hfin, rfl⟩
